import Mathlib

/-!
Verification of the multipart/form-data encoder in `src/multipart.rs`.

The Rust code is shallowly embedded over byte lists (`List Nat`, one entry
per byte).  Rust `String`/`str` values that occur here are ASCII, so their
UTF-8 bytes coincide with the code points produced by `strBytes`.
`std::io::Cursor` is modelled by `Cursor` (the underlying buffer plus a
position, with the position bounded by the buffer length, which holds for
every cursor the code ever constructs).  A `Box<dyn Read>` payload source
is modelled as a byte sequence served cursor-style, optionally followed by
an I/O error (`srcErr`) reported once the bytes are exhausted; an error
value is a `Nat` code standing for the `std::io::Error`.  `read` returns
the bytes it wrote into the destination buffer (Rust returns the count and
writes the bytes); on the error path Rust has already copied the bytes of
earlier sub-reads into the caller's buffer even though no count is
reported, so the model's error result carries those bytes as well.
The `while` loop of `PreparedFields::read` is written with a fuel
parameter; the fuel chosen by `PreparedFields.read` dominates the loop
variant `(buf.len - total_read) + streams.length`, which strictly
decreases on every iteration, so the fuel never runs out (the `0` case is
unreachable from `PreparedFields.read`).
-/

namespace OpenAIAPI

set_option maxRecDepth 40000

/-- UTF-8 bytes of an ASCII string literal. -/
def strBytes (s : String) : List Nat := s.data.map Char.toNat

/-- `std::io::Cursor`: a buffer plus a read position. -/
structure Cursor where
  data : List Nat
  pos : Nat
  hpos : pos ≤ data.length

/-- The bytes of the cursor not yet consumed. -/
def Cursor.rem (c : Cursor) : List Nat := c.data.drop c.pos

/-- `fn cursor_at_end`: `cursor.position() == cursor.get_ref().len()`. -/
def cursor_at_end (c : Cursor) : Prop := c.pos = c.data.length

instance (c : Cursor) : Decidable (cursor_at_end c) :=
  inferInstanceAs (Decidable (c.pos = c.data.length))

/-- `Cursor::read`: copies `min buf.len remaining` bytes and advances. -/
def Cursor.read (c : Cursor) (n : Nat) : List Nat × Cursor :=
  ((c.data.drop c.pos).take n,
   ⟨c.data, c.pos + ((c.data.drop c.pos).take n).length, by
      have hp := c.hpos
      rw [List.length_take, List.length_drop]
      omega⟩)

/-- `struct PreparedField`: rendered header plus the payload source.
The `Box<dyn Read>` source is modelled by the bytes it will produce
(`data`, served cursor-style) and the error it reports after them
(`err`), if any. -/
structure PreparedField where
  header : Cursor
  data : List Nat
  err : Option Nat

/-- `impl Read for PreparedField`: serve the header until it is exhausted,
then forward to the payload source. -/
def PreparedField.read (f : PreparedField) (n : Nat) :
    Except Nat (List Nat × PreparedField) :=
  if ¬ cursor_at_end f.header then
    let r := f.header.read n
    .ok (r.1, { f with header := r.2 })
  else
    match f.data, f.err with
    | [], some e => .error e
    | [], none => .ok ([], f)
    | d :: ds, _ => .ok ((d :: ds).take n, { f with data := (d :: ds).drop n })

/-- `struct PreparedFields`. -/
structure PreparedFields where
  text_data : Cursor
  streams : List PreparedField
  end_boundary : Cursor

/-- `PreparedFields::boundary`: `&boundary[4..boundary.len() - 2]`.
`none` models the out-of-range panic of the slice (in particular when the
stored boundary string is shorter than 6 bytes). -/
def PreparedFields.boundary (p : PreparedFields) : Option (List Nat) :=
  let b := p.end_boundary.data
  if 2 ≤ b.length ∧ 4 ≤ b.length - 2 then
    some ((b.take (b.length - 2)).drop 4)
  else
    none

/-- Outcome of one `read` call: the bytes written into the caller's
buffer, or an error code together with the bytes that earlier sub-reads
of the same call had already written into the buffer. -/
inductive ReadResult where
  | ok (bytes : List Nat)
  | err (e : Nat) (bytes : List Nat)
deriving DecidableEq

/-- `Vec::pop` together with the vector that remains: returns the prefix
before the last element and the last element. -/
def vecPop {α : Type} : List α → Option (List α × α)
  | [] => none
  | [a] => some ([], a)
  | a :: b :: rest =>
    match vecPop (b :: rest) with
    | some (r, x) => some (a :: r, x)
    | none => none

/-- The `while` loop of `PreparedFields::read`, with `acc` the bytes
already written into the destination buffer (`total_read = acc.length`)
and `n` the buffer capacity.  `fuel` bounds the number of iterations; it
is consumed once per iteration and `PreparedFields.read` supplies enough
of it (see `readLoop_fuel_irrelevant` uses below). -/
def readLoop : Nat → PreparedFields → Nat → List Nat → ReadResult × PreparedFields
  | 0, s, _, acc => (.ok acc, s)
  | fuel + 1, s, n, acc =>
    if acc.length < n ∧ ¬ cursor_at_end s.end_boundary then
      if ¬ cursor_at_end s.text_data then
        let r := s.text_data.read (n - acc.length)
        readLoop fuel { s with text_data := r.2 } n (acc ++ r.1)
      else
        match vecPop s.streams with
        | some (rest, f) =>
          match f.read (n - acc.length) with
          | .ok ([], _) => readLoop fuel { s with streams := rest } n acc
          | .ok (b :: bs, f2) =>
            readLoop fuel { s with streams := rest ++ [f2] } n (acc ++ b :: bs)
          | .error e => (.err e acc, { s with streams := rest ++ [f] })
        | none =>
          let r := s.end_boundary.read (n - acc.length)
          readLoop fuel { s with end_boundary := r.2 } n (acc ++ r.1)
    else (.ok acc, s)

/-- `impl Read for PreparedFields`: the zero-capacity early return, then
the loop.  The fuel `n + s.streams.length` dominates the loop variant. -/
def PreparedFields.read (s : PreparedFields) (n : Nat) :
    ReadResult × PreparedFields :=
  if n = 0 then (.ok [], s)
  else readLoop (n + s.streams.length) s n []

/-- Repeatedly read with the destination buffer capacities listed in
`sizes`, concatenating everything that lands in the buffers. -/
def drainList (s : PreparedFields) : List Nat → List Nat
  | [] => []
  | n :: ns =>
    match s.read n with
    | (.ok out, s2) => out ++ drainList s2 ns
    | (.err _ out, s2) => out ++ drainList s2 ns

/-- `struct Stream` (the registered, not yet prepared form): filename,
content type, and the payload source (bytes plus optional trailing
error). -/
structure StreamData where
  filename : Option (List Nat)
  content_type : List Nat
  stream : List Nat
  srcErr : Option Nat

/-- `enum Data`. -/
inductive Data where
  | text (value : List Nat)
  | stream (sd : StreamData)

/-- `struct Multipart`. -/
structure Multipart where
  fields : List (List Nat × Data)

/-- `Multipart::new`. -/
def Multipart.new : Multipart := ⟨[]⟩

/-- `Multipart::add_text`. -/
def Multipart.add_text (m : Multipart) (name text : List Nat) : Multipart :=
  ⟨m.fields ++ [(name, .text text)]⟩

/-- `mime::APPLICATION_OCTET_STREAM` as displayed by `write!`. -/
def APPLICATION_OCTET_STREAM : List Nat := strBytes "application/octet-stream"

/-- `Multipart::add_stream`; `mime.unwrap_or(APPLICATION_OCTET_STREAM)`. -/
def Multipart.add_stream (m : Multipart) (name : List Nat)
    (stream : List Nat) (srcErr : Option Nat)
    (filename : Option (List Nat)) (mime : Option (List Nat)) : Multipart :=
  ⟨m.fields ++
    [(name, .stream ⟨filename, mime.getD APPLICATION_OCTET_STREAM, stream, srcErr⟩)]⟩

/-- The bytes `write!` appends to `text_data` for one text field. -/
def textRender (boundary name text : List Nat) : List Nat :=
  boundary ++ strBytes "\r\nContent-Disposition: form-data; name=\"" ++ name ++
    strBytes "\"\r\n\r\n" ++ text

/-- `PreparedField::from_stream`: renders the header bytes. -/
def PreparedField.from_stream (name boundary content_type : List Nat)
    (filename : Option (List Nat)) (stream : List Nat) (srcErr : Option Nat) :
    PreparedField :=
  { header :=
      ⟨boundary ++ strBytes "\r\nContent-Disposition: form-data; name=\"" ++ name ++
        strBytes "\"" ++
        (match filename with
         | some f => strBytes "; filename=\"" ++ f ++ strBytes "\""
         | none => []) ++
        strBytes "\r\nContent-Type: " ++ content_type ++ strBytes "\r\n\r\n",
       0, Nat.zero_le _⟩,
    data := stream,
    err := srcErr }

/-- One step of the `for field in self.fields.drain(..)` loop of
`Multipart::prepare`: text fields are appended to `text_data`, stream
fields are pushed onto `streams`. -/
def prepStep (boundary : List Nat) (acc : List Nat × List PreparedField)
    (field : List Nat × Data) : List Nat × List PreparedField :=
  match field.2 with
  | .text t => (acc.1 ++ textRender boundary field.1 t, acc.2)
  | .stream sd =>
    (acc.1,
     acc.2 ++ [PreparedField.from_stream field.1 boundary sd.content_type
                 sd.filename sd.stream sd.srcErr])

/-- `Multipart::prepare`.  The randomly generated 16-character token is an
external collaborator, so it is passed in as `tok`.  Rust drains
`self.fields` in place and returns `Ok(PreparedFields { .. })`; the `Ok`
is unconditional (writing into a `Vec` cannot fail), so the model returns
the drained `Multipart` together with the `PreparedFields`. -/
def Multipart.prepare (m : Multipart) (tok : List Nat) :
    Multipart × PreparedFields :=
  let boundary := strBytes "\r\n--" ++ tok
  let r := m.fields.foldl (prepStep boundary) ([], [])
  let endB := if r.1.isEmpty && r.2.isEmpty then [] else boundary ++ strBytes "--"
  (⟨[]⟩,
   { text_data := ⟨r.1, 0, Nat.zero_le _⟩,
     streams := r.2,
     end_boundary := ⟨endB, 0, Nat.zero_le _⟩ })

/-! ### Observers used by the specifications -/

/-- Bytes a prepared field has still to produce: unread header bytes then
the payload bytes. -/
def PreparedField.pending (f : PreparedField) : List Nat :=
  f.header.rem ++ f.data

/-- Bytes the queued stream fields have still to produce, in the order
they are served (`Vec::pop`, i.e. back to front). -/
def streamsPending (l : List PreparedField) : List Nat :=
  (l.reverse.map PreparedField.pending).flatten

/-- All bytes the body has still to produce. -/
def PreparedFields.pending (s : PreparedFields) : List Nat :=
  s.text_data.rem ++ (streamsPending s.streams ++ s.end_boundary.rem)

/-- Reachable-state invariant: the end boundary cursor is exhausted only
when the whole body is. -/
def goodState (s : PreparedFields) : Prop :=
  cursor_at_end s.end_boundary → s.pending = []

instance (s : PreparedFields) : Decidable (goodState s) :=
  inferInstanceAs (Decidable (_ → _ = _))

/-- No queued stream field will ever report an I/O error. -/
def errFree (s : PreparedFields) : Prop :=
  ∀ f ∈ s.streams, f.err = none

instance (s : PreparedFields) : Decidable (errFree s) :=
  List.decidableBAll _ s.streams

/-- A registered field whose payload source never errors. -/
def fieldOk : List Nat × Data → Prop
  | (_, .text _) => True
  | (_, .stream sd) => sd.srcErr = none

instance (f : List Nat × Data) : Decidable (fieldOk f) :=
  match f with
  | (_, .text _) => isTrue trivial
  | (_, .stream sd) => inferInstanceAs (Decidable (sd.srcErr = none))

/-- A multipart whose stream payload sources never error. -/
def errFreeM (m : Multipart) : Prop := ∀ f ∈ m.fields, fieldOk f

instance (m : Multipart) : Decidable (errFreeM m) :=
  List.decidableBAll _ m.fields

/-- The text block a field contributes, when it is a text field. -/
def textOf (boundary : List Nat) : List Nat × Data → Option (List Nat)
  | (name, .text t) => some (textRender boundary name t)
  | (_, .stream _) => none

/-- The prepared field a registered field becomes, when it is a stream
field. -/
def streamOf (boundary : List Nat) : List Nat × Data → Option PreparedField
  | (_, .text _) => none
  | (name, .stream sd) =>
    some (PreparedField.from_stream name boundary sd.content_type
            sd.filename sd.stream sd.srcErr)

/-- The full bytes (header plus payload) a stream field contributes to
the body, when it is a stream field. -/
def streamRender (boundary : List Nat) : List Nat × Data → Option (List Nat)
  | (_, .text _) => none
  | (name, .stream sd) =>
    some ((PreparedField.from_stream name boundary sd.content_type
             sd.filename sd.stream sd.srcErr).header.data ++ sd.stream)

/-- What one call of the read loop guarantees: an `ok` result extends
`acc` by the next `n - acc.length` pending bytes and the state advances
past exactly those bytes; an `err` result accounts for every byte the
call wrote (nothing of the body is skipped or duplicated), the error is
the recorded error of a queued source, and the erroring field is pushed
back on top of the queue. -/
def LoopSpec (fuel : Nat) (s : PreparedFields) (n : Nat) (acc : List Nat) : Prop :=
  (∀ out s2, readLoop fuel s n acc = (.ok out, s2) →
    out = acc ++ s.pending.take (n - acc.length) ∧
    s2.pending = s.pending.drop (n - acc.length) ∧
    goodState s2 ∧
    s2.streams.map PreparedField.err <+: s.streams.map PreparedField.err) ∧
  (∀ e out s2, readLoop fuel s n acc = (.err e out, s2) →
    out ++ s2.pending = acc ++ s.pending ∧
    some e ∈ s.streams.map PreparedField.err ∧
    ∃ rest f, s2.streams = rest ++ [f] ∧ f.err = some e)

/-! ### Concrete inputs used by witnesses and counterexamples -/

/-- A fixed 16-character alphanumeric boundary token. -/
def tokA : List Nat := strBytes "0123456789ABCDEF"

/-- A field set with the single text field `("a", "hello")`. -/
def mText1 : Multipart := Multipart.new.add_text (strBytes "a") (strBytes "hello")

/-- `mText1` prepared with `tokA`. -/
def pText1 : PreparedFields := (mText1.prepare tokA).2

/-- One text field followed by two stream fields. -/
def mMixed : Multipart :=
  ((Multipart.new.add_text (strBytes "a") (strBytes "x")).add_stream
      (strBytes "s1") [1, 2, 3] none none none).add_stream
    (strBytes "s2") [9, 8] none (some (strBytes "f.bin")) (some (strBytes "text/plain"))

/-- `mMixed` prepared with `tokA`. -/
def pMixed : PreparedFields := (mMixed.prepare tokA).2

/-- One text field plus a stream field whose source errors immediately
(error code 7). -/
def mFail : Multipart :=
  (Multipart.new.add_text (strBytes "a") (strBytes "x")).add_stream
    (strBytes "f") [] (some 7) none none

/-- `mFail` prepared with `tokA`. -/
def pFail : PreparedFields := (mFail.prepare tokA).2

/-- The empty field set prepared with `tokA`. -/
def pEmpty : PreparedFields := (Multipart.new.prepare tokA).2

/-! ### Cursor and list helper lemmas -/

theorem Cursor.read_fst (c : Cursor) (n : Nat) : (c.read n).1 = c.rem.take n := rfl

theorem Cursor.read_data (c : Cursor) (n : Nat) : (c.read n).2.data = c.data := rfl

theorem Cursor.read_rem (c : Cursor) (n : Nat) :
    (c.read n).2.rem = c.rem.drop ((c.read n).1).length := by
  simp only [Cursor.read, Cursor.rem, List.drop_drop]

theorem cursor_at_end_rem {c : Cursor} (h : cursor_at_end c) : c.rem = [] :=
  List.drop_eq_nil_of_le (le_of_eq h.symm)

theorem rem_length_pos {c : Cursor} (h : ¬ cursor_at_end c) : 0 < c.rem.length := by
  have hp := c.hpos
  unfold cursor_at_end at h
  unfold Cursor.rem
  rw [List.length_drop]
  omega

theorem take_length_take (l : List Nat) (m : Nat) :
    l.take ((l.take m).length) = l.take m := by
  rw [List.length_take]
  rcases Nat.le_total m l.length with h | h
  · rw [Nat.min_eq_left h]
  · rw [Nat.min_eq_right h, List.take_length, List.take_of_length_le h]

theorem drop_length_take (l : List Nat) (m : Nat) :
    l.drop ((l.take m).length) = l.drop m := by
  rw [List.length_take]
  rcases Nat.le_total m l.length with h | h
  · rw [Nat.min_eq_left h]
  · rw [Nat.min_eq_right h, List.drop_length, List.drop_eq_nil_of_le h]

theorem chunk_take (P : List Nat) {m k : Nat} (hk : k ≤ m) :
    P.take m = P.take k ++ (P.drop k).take (m - k) := by
  conv_lhs => rw [show m = k + (m - k) by omega, List.take_add]

theorem chunk_drop (P : List Nat) {m k : Nat} (hk : k ≤ m) :
    (P.drop k).drop (m - k) = P.drop m := by
  rw [List.drop_drop]
  congr 1
  omega

/-! ### `vecPop` lemmas -/

theorem vecPop_cons_some {α : Type} :
    ∀ (t : List α) (a : α), ∃ r x, vecPop (a :: t) = some (r, x) := by
  intro t
  induction t with
  | nil => intro a; exact ⟨[], a, rfl⟩
  | cons b t2 ih =>
    intro a
    obtain ⟨r, x, h⟩ := ih b
    exact ⟨a :: r, x, by unfold vecPop; rw [h]⟩

theorem vecPop_none {α : Type} {l : List α} (h : vecPop l = none) : l = [] := by
  cases l with
  | nil => rfl
  | cons a t =>
    obtain ⟨r, x, hs⟩ := vecPop_cons_some t a
    rw [hs] at h
    exact absurd h (by simp)

theorem vecPop_some {α : Type} :
    ∀ {l r : List α} {x : α}, vecPop l = some (r, x) → l = r ++ [x] := by
  intro l
  induction l with
  | nil => intro r x h; simp [vecPop] at h
  | cons a t ih =>
    intro r x h
    cases t with
    | nil =>
      simp [vecPop] at h
      obtain ⟨h1, h2⟩ := h
      subst h1
      subst h2
      rfl
    | cons b t2 =>
      unfold vecPop at h
      rcases hv : vecPop (b :: t2) with _ | p
      · rw [hv] at h
        exact absurd h (by simp)
      · rw [hv] at h
        obtain ⟨r2, x2⟩ := p
        simp only [Option.some.injEq, Prod.mk.injEq] at h
        obtain ⟨h1, h2⟩ := h
        have ht := ih hv
        subst h1
        subst h2
        rw [ht]
        rfl

/-! ### `PreparedField.read` lemmas -/

theorem PreparedField.read_ok {f f2 : PreparedField} {n : Nat} {out : List Nat}
    (h : f.read n = .ok (out, f2)) (_hn : 1 ≤ n) :
    out = f.pending.take out.length ∧
    f2.pending = f.pending.drop out.length ∧
    f2.err = f.err ∧ out.length ≤ n := by
  unfold PreparedField.read at h
  by_cases hh : cursor_at_end f.header
  · rw [if_neg (not_not_intro hh)] at h
    have hrem : f.header.rem = [] := cursor_at_end_rem hh
    rcases hd : f.data with _ | ⟨d, ds⟩ <;> rw [hd] at h
    · rcases he : f.err with _ | e <;> rw [he] at h
      · simp only [Except.ok.injEq, Prod.mk.injEq] at h
        obtain ⟨h1, h2⟩ := h
        subst h1
        subst h2
        simp [PreparedField.pending, hrem, hd, he]
      · exact absurd h (by simp)
    · simp only [Except.ok.injEq, Prod.mk.injEq] at h
      obtain ⟨h1, h2⟩ := h
      subst h1
      subst h2
      have hp : f.pending = d :: ds := by
        rw [PreparedField.pending, hrem, hd, List.nil_append]
      refine ⟨?_, ?_, rfl, ?_⟩
      · rw [hp, take_length_take]
      · show f.header.rem ++ List.drop n (d :: ds) = _
        rw [hp, hrem, List.nil_append, drop_length_take]
      · rw [List.length_take]
        omega
  · rw [if_pos hh] at h
    simp only [Except.ok.injEq, Prod.mk.injEq] at h
    obtain ⟨h1, h2⟩ := h
    subst h1
    subst h2
    have hk : ((f.header.read n).1).length ≤ f.header.rem.length := by
      rw [Cursor.read_fst, List.length_take]
      omega
    refine ⟨?_, ?_, rfl, ?_⟩
    · rw [PreparedField.pending, List.take_append_of_le_length hk,
        Cursor.read_fst, take_length_take]
    · show (f.header.read n).2.rem ++ f.data = _
      rw [PreparedField.pending, List.drop_append_of_le_length hk, Cursor.read_rem]
    · rw [Cursor.read_fst, List.length_take]
      omega

theorem PreparedField.read_ok_nil {f f2 : PreparedField} {n : Nat}
    (h : f.read n = .ok ([], f2)) (hn : 1 ≤ n) : f.pending = [] := by
  unfold PreparedField.read at h
  by_cases hh : cursor_at_end f.header
  · rw [if_neg (not_not_intro hh)] at h
    rcases hd : f.data with _ | ⟨d, ds⟩ <;> rw [hd] at h
    · rw [PreparedField.pending, cursor_at_end_rem hh, hd]
      rfl
    · simp only [Except.ok.injEq, Prod.mk.injEq] at h
      have h1 : List.take n (d :: ds) = [] := h.1
      have h2 : (List.take n (d :: ds)).length = 0 := by rw [h1]; rfl
      rw [List.length_take, List.length_cons] at h2
      omega
  · rw [if_pos hh] at h
    simp only [Except.ok.injEq, Prod.mk.injEq] at h
    have hpos := rem_length_pos hh
    have h1 : (f.header.read n).1 = [] := h.1
    have h2 : ((f.header.read n).1).length = 0 := by rw [h1]; rfl
    rw [Cursor.read_fst, List.length_take] at h2
    omega

theorem PreparedField.read_err {f : PreparedField} {n : Nat} {e : Nat}
    (h : f.read n = .error e) : f.err = some e ∧ f.pending = [] := by
  unfold PreparedField.read at h
  by_cases hh : cursor_at_end f.header
  · rw [if_neg (not_not_intro hh)] at h
    rcases hd : f.data with _ | ⟨d, ds⟩ <;> rw [hd] at h
    · rcases he : f.err with _ | e2 <;> rw [he] at h
      · exact absurd h (by simp)
      · simp only [Except.error.injEq] at h
        subst h
        refine ⟨rfl, ?_⟩
        rw [PreparedField.pending, cursor_at_end_rem hh, hd]
        rfl
    · exact absurd h (by simp)
  · rw [if_pos hh] at h
    exact absurd h (by simp)

/-! ### `streamsPending` lemmas -/

theorem streamsPending_nil : streamsPending [] = [] := rfl

theorem streamsPending_append_one (l : List PreparedField) (f : PreparedField) :
    streamsPending (l ++ [f]) = f.pending ++ streamsPending l := by
  unfold streamsPending
  rw [List.reverse_append]
  simp

/-! ### Branch equations of the read loop -/

theorem readLoop_stop {fuel : Nat} {s : PreparedFields} {n : Nat} {acc : List Nat}
    (h : ¬(acc.length < n ∧ ¬ cursor_at_end s.end_boundary)) :
    readLoop (fuel + 1) s n acc = (.ok acc, s) := by
  simp only [readLoop, if_neg h]

theorem readLoop_text {fuel : Nat} {s : PreparedFields} {n : Nat} {acc : List Nat}
    (hg : acc.length < n ∧ ¬ cursor_at_end s.end_boundary)
    (ht : ¬ cursor_at_end s.text_data) :
    readLoop (fuel + 1) s n acc =
      readLoop fuel { s with text_data := (s.text_data.read (n - acc.length)).2 } n
        (acc ++ (s.text_data.read (n - acc.length)).1) := by
  simp only [readLoop, if_pos hg, if_pos ht]

theorem readLoop_boundary {fuel : Nat} {s : PreparedFields} {n : Nat} {acc : List Nat}
    (hg : acc.length < n ∧ ¬ cursor_at_end s.end_boundary)
    (ht : cursor_at_end s.text_data) (hv : vecPop s.streams = none) :
    readLoop (fuel + 1) s n acc =
      readLoop fuel { s with end_boundary := (s.end_boundary.read (n - acc.length)).2 } n
        (acc ++ (s.end_boundary.read (n - acc.length)).1) := by
  simp only [readLoop, if_pos hg, if_neg (not_not_intro ht), hv]

theorem readLoop_stream_nil {fuel : Nat} {s : PreparedFields} {n : Nat} {acc : List Nat}
    {rest : List PreparedField} {f f2 : PreparedField}
    (hg : acc.length < n ∧ ¬ cursor_at_end s.end_boundary)
    (ht : cursor_at_end s.text_data)
    (hv : vecPop s.streams = some (rest, f))
    (hr : f.read (n - acc.length) = .ok ([], f2)) :
    readLoop (fuel + 1) s n acc = readLoop fuel { s with streams := rest } n acc := by
  simp only [readLoop, if_pos hg, if_neg (not_not_intro ht), hv, hr]

theorem readLoop_stream_cons {fuel : Nat} {s : PreparedFields} {n : Nat} {acc : List Nat}
    {rest : List PreparedField} {f f2 : PreparedField} {b : Nat} {bs : List Nat}
    (hg : acc.length < n ∧ ¬ cursor_at_end s.end_boundary)
    (ht : cursor_at_end s.text_data)
    (hv : vecPop s.streams = some (rest, f))
    (hr : f.read (n - acc.length) = .ok (b :: bs, f2)) :
    readLoop (fuel + 1) s n acc =
      readLoop fuel { s with streams := rest ++ [f2] } n (acc ++ b :: bs) := by
  simp only [readLoop, if_pos hg, if_neg (not_not_intro ht), hv, hr]

theorem readLoop_stream_err {fuel : Nat} {s : PreparedFields} {n : Nat} {acc : List Nat}
    {rest : List PreparedField} {f : PreparedField} {e : Nat}
    (hg : acc.length < n ∧ ¬ cursor_at_end s.end_boundary)
    (ht : cursor_at_end s.text_data)
    (hv : vecPop s.streams = some (rest, f))
    (hr : f.read (n - acc.length) = .error e) :
    readLoop (fuel + 1) s n acc = (.err e acc, { s with streams := rest ++ [f] }) := by
  simp only [readLoop, if_pos hg, if_neg (not_not_intro ht), hv, hr]

/-! ### The read-loop specification -/

theorem LoopSpec.of_chunk {fuel : Nat} {s s1 : PreparedFields} {n : Nat}
    {acc out1 : List Nat}
    (heq : readLoop (fuel + 1) s n acc = readLoop fuel s1 n (acc ++ out1))
    (hout : out1 = s.pending.take out1.length)
    (hpend : s1.pending = s.pending.drop out1.length)
    (hlen : out1.length ≤ n - acc.length)
    (hstreams : s1.streams.map PreparedField.err <+: s.streams.map PreparedField.err)
    (hspec : LoopSpec fuel s1 n (acc ++ out1)) :
    LoopSpec (fuel + 1) s n acc := by
  obtain ⟨hok, herr⟩ := hspec
  constructor
  · intro out s2 h
    rw [heq] at h
    obtain ⟨ho, hp, hg2, hpre⟩ := hok out s2 h
    have harith : n - (acc ++ out1).length = n - acc.length - out1.length := by
      rw [List.length_append]
      omega
    refine ⟨?_, ?_, hg2, hpre.trans hstreams⟩
    · rw [ho, harith, hpend, List.append_assoc]
      congr 1
      rw [chunk_take s.pending hlen, ← hout]
    · rw [hp, harith, hpend, chunk_drop s.pending hlen]
  · intro e out s2 h
    rw [heq] at h
    obtain ⟨ho, hmem, hex⟩ := herr e out s2 h
    refine ⟨?_, hstreams.subset hmem, hex⟩
    rw [ho, hpend, List.append_assoc]
    congr 1
    conv_rhs => rw [← List.take_append_drop out1.length s.pending]
    rw [← hout]

theorem readLoop_spec :
    ∀ (fuel : Nat) (s : PreparedFields) (n : Nat) (acc : List Nat),
      n - acc.length + s.streams.length ≤ fuel → goodState s →
      LoopSpec fuel s n acc := by
  intro fuel
  induction fuel with
  | zero =>
    intro s n acc hfuel hgood
    constructor
    · intro out s2 h
      simp only [readLoop] at h
      simp only [Prod.mk.injEq, ReadResult.ok.injEq] at h
      obtain ⟨h1, h2⟩ := h
      subst h1
      subst h2
      have hm : n - acc.length = 0 := by omega
      rw [hm]
      exact ⟨by simp, by simp, hgood, List.prefix_refl _⟩
    · intro e out s2 h
      simp only [readLoop] at h
      exact absurd h (by simp)
  | succ fuel ih =>
    intro s n acc hfuel hgood
    by_cases hg : acc.length < n ∧ ¬ cursor_at_end s.end_boundary
    case neg =>
      constructor
      · intro out s2 h
        rw [readLoop_stop hg] at h
        simp only [Prod.mk.injEq, ReadResult.ok.injEq] at h
        obtain ⟨h1, h2⟩ := h
        subst h1
        subst h2
        rcases not_and_or.mp hg with hc | hc
        · have hm : n - acc.length = 0 := by omega
          rw [hm]
          exact ⟨by simp, by simp, hgood, List.prefix_refl _⟩
        · have hP : s.pending = [] := hgood (not_not.mp hc)
          rw [hP]
          exact ⟨by simp, by simp, hgood, List.prefix_refl _⟩
      · intro e out s2 h
        rw [readLoop_stop hg] at h
        exact absurd h (by simp)
    case pos =>
      obtain ⟨hlt, hbe⟩ := hg
      by_cases ht : cursor_at_end s.text_data
      case neg =>
        have hout1len : 0 < ((s.text_data.read (n - acc.length)).1).length := by
          rw [Cursor.read_fst, List.length_take]
          have := rem_length_pos ht
          omega
        have hkle :
            ((s.text_data.read (n - acc.length)).1).length ≤ s.text_data.rem.length := by
          rw [Cursor.read_fst, List.length_take]
          omega
        refine LoopSpec.of_chunk (readLoop_text ⟨hlt, hbe⟩ ht) ?_ ?_ ?_ ?_ ?_
        · rw [PreparedFields.pending, List.take_append_of_le_length hkle,
            Cursor.read_fst]
          exact (take_length_take _ _).symm
        · show (s.text_data.read (n - acc.length)).2.rem ++
            (streamsPending s.streams ++ s.end_boundary.rem) = _
          rw [Cursor.read_rem, PreparedFields.pending,
            List.drop_append_of_le_length hkle]
        · rw [Cursor.read_fst, List.length_take]
          omega
        · exact List.prefix_refl _
        · refine ih _ n _ ?_ ?_
          · show n - (acc ++ (s.text_data.read (n - acc.length)).1).length +
              s.streams.length ≤ fuel
            rw [List.length_append]
            omega
          · intro hc
            exact absurd hc hbe
      case pos =>
        rcases hv : vecPop s.streams with _ | ⟨rest, f⟩
        · -- text block done, no streams left: serve the end boundary
          have hsnil : s.streams = [] := vecPop_none hv
          have htrem : s.text_data.rem = [] := cursor_at_end_rem ht
          have hPP : s.pending = s.end_boundary.rem := by
            rw [PreparedFields.pending, htrem, hsnil, streamsPending_nil]
            rfl
          have hout1len : 0 < ((s.end_boundary.read (n - acc.length)).1).length := by
            rw [Cursor.read_fst, List.length_take]
            have := rem_length_pos hbe
            omega
          refine LoopSpec.of_chunk (readLoop_boundary ⟨hlt, hbe⟩ ht hv) ?_ ?_ ?_ ?_ ?_
          · rw [hPP, Cursor.read_fst]
            exact (take_length_take _ _).symm
          · show s.text_data.rem ++ (streamsPending s.streams ++
              (s.end_boundary.read (n - acc.length)).2.rem) = _
            rw [htrem, hsnil, streamsPending_nil, Cursor.read_rem, hPP]
            rfl
          · rw [Cursor.read_fst, List.length_take]
            omega
          · exact List.prefix_refl _
          · refine ih _ n _ ?_ ?_
            · show n - (acc ++ (s.end_boundary.read (n - acc.length)).1).length +
                s.streams.length ≤ fuel
              rw [List.length_append]
              omega
            · intro hc
              show s.text_data.rem ++ (streamsPending s.streams ++
                (s.end_boundary.read (n - acc.length)).2.rem) = []
              rw [htrem, hsnil, streamsPending_nil, cursor_at_end_rem hc]
              rfl
        · -- a stream field is popped
          have hsf : s.streams = rest ++ [f] := vecPop_some hv
          have htrem : s.text_data.rem = [] := cursor_at_end_rem ht
          have hsl : s.streams.length = rest.length + 1 := by
            rw [hsf]
            simp
          have hPP : s.pending =
              f.pending ++ (streamsPending rest ++ s.end_boundary.rem) := by
            rw [PreparedFields.pending, htrem, hsf, streamsPending_append_one]
            simp [List.append_assoc]
          rcases hr : f.read (n - acc.length) with e | ⟨out2, f2⟩
          · -- the payload source reports an error
            obtain ⟨hfe, hfp⟩ := PreparedField.read_err hr
            constructor
            · intro out s2 h
              rw [readLoop_stream_err ⟨hlt, hbe⟩ ht hv hr] at h
              exact absurd h (by simp)
            · intro e2 out s2 h
              rw [readLoop_stream_err ⟨hlt, hbe⟩ ht hv hr] at h
              simp only [Prod.mk.injEq, ReadResult.err.injEq] at h
              obtain ⟨⟨he2, hacc⟩, hs2⟩ := h
              subst he2
              subst hacc
              subst hs2
              have hpeq :
                  PreparedFields.pending { s with streams := rest ++ [f] } =
                    s.pending := by
                show s.text_data.rem ++ (streamsPending (rest ++ [f]) ++
                  s.end_boundary.rem) = _
                rw [PreparedFields.pending, ← hsf]
              refine ⟨by rw [hpeq], ?_, rest, f, rfl, hfe⟩
              rw [hsf, List.map_append]
              simp [hfe]
          · cases out2 with
            | nil =>
              -- `Ok(0)`: the popped field is dropped, nothing was produced
              have hfp : f.pending = [] := PreparedField.read_ok_nil hr (by omega)
              have heq : readLoop (fuel + 1) s n acc =
                  readLoop fuel { s with streams := rest } n (acc ++ ([] : List Nat)) := by
                rw [readLoop_stream_nil ⟨hlt, hbe⟩ ht hv hr, List.append_nil]
              refine LoopSpec.of_chunk heq ?_ ?_ ?_ ?_ ?_
              · simp
              · show s.text_data.rem ++ (streamsPending rest ++ s.end_boundary.rem) = _
                rw [htrem, hPP, hfp]
                simp
              · simp
              · rw [hsf, List.map_append]
                exact List.prefix_append _ _
              · refine ih _ n _ ?_ ?_
                · show n - (acc ++ ([] : List Nat)).length + rest.length ≤ fuel
                  rw [List.append_nil]
                  omega
                · intro hc
                  exact absurd hc hbe
            | cons b bs =>
              -- the popped field produced bytes and is pushed back
              obtain ⟨ho1, ho2, ho3, ho4⟩ := PreparedField.read_ok hr (by omega)
              have hkf : (b :: bs).length ≤ f.pending.length := by
                have := congrArg List.length ho1
                rw [List.length_take] at this
                omega
              refine LoopSpec.of_chunk (readLoop_stream_cons ⟨hlt, hbe⟩ ht hv hr)
                ?_ ?_ ?_ ?_ ?_
              · rw [hPP, List.take_append_of_le_length hkf, ← ho1]
              · show s.text_data.rem ++ (streamsPending (rest ++ [f2]) ++
                  s.end_boundary.rem) = _
                rw [htrem, streamsPending_append_one, ho2, hPP,
                  List.drop_append_of_le_length hkf]
                simp [List.append_assoc]
              · exact ho4
              · rw [hsf, List.map_append, List.map_append]
                simp only [List.map_cons, List.map_nil, ho3]
                exact List.prefix_refl _
              · refine ih _ n _ ?_ ?_
                · show n - (acc ++ b :: bs).length + (rest ++ [f2]).length ≤ fuel
                  rw [List.length_append, List.length_append]
                  simp only [List.length_cons, List.length_nil]
                  omega
                · intro hc
                  exact absurd hc hbe

/-! ### Specification of `PreparedFields.read` and `drainList` -/

theorem read_spec_ok {s : PreparedFields} {n : Nat} {out : List Nat}
    {s2 : PreparedFields} (hgood : goodState s) (h : s.read n = (.ok out, s2)) :
    out = s.pending.take n ∧ s2.pending = s.pending.drop n ∧ goodState s2 ∧
    s2.streams.map PreparedField.err <+: s.streams.map PreparedField.err := by
  unfold PreparedFields.read at h
  by_cases hn : n = 0
  · subst hn
    rw [if_pos rfl] at h
    simp only [Prod.mk.injEq, ReadResult.ok.injEq] at h
    obtain ⟨h1, h2⟩ := h
    subst h1
    subst h2
    exact ⟨by simp, by simp, hgood, List.prefix_refl _⟩
  · rw [if_neg hn] at h
    have hspec := readLoop_spec (n + s.streams.length) s n [] (by simp) hgood
    obtain ⟨h1, h2, h3, h4⟩ := hspec.1 out s2 h
    simp only [List.length_nil, Nat.sub_zero, List.nil_append] at h1 h2
    exact ⟨h1, h2, h3, h4⟩

theorem read_spec_err {s : PreparedFields} {n : Nat} {e : Nat} {out : List Nat}
    {s2 : PreparedFields} (hgood : goodState s) (h : s.read n = (.err e out, s2)) :
    out ++ s2.pending = s.pending ∧
    some e ∈ s.streams.map PreparedField.err ∧
    ∃ rest f, s2.streams = rest ++ [f] ∧ f.err = some e := by
  unfold PreparedFields.read at h
  by_cases hn : n = 0
  · subst hn
    rw [if_pos rfl] at h
    exact absurd h (by simp)
  · rw [if_neg hn] at h
    obtain ⟨h1, h2, h3⟩ := (readLoop_spec (n + s.streams.length) s n [] (by simp)
      hgood).2 e out s2 h
    simp only [List.length_nil, Nat.sub_zero, List.nil_append] at h1
    exact ⟨h1, h2, h3⟩

theorem errFree_read_ok {s : PreparedFields} {n : Nat} {r : ReadResult}
    {s2 : PreparedFields} (hgood : goodState s) (hfree : errFree s)
    (h : s.read n = (r, s2)) :
    r = .ok (s.pending.take n) ∧ s2.pending = s.pending.drop n ∧
    goodState s2 ∧ errFree s2 := by
  cases r with
  | ok out =>
    obtain ⟨h1, h2, h3, h4⟩ := read_spec_ok hgood h
    subst h1
    refine ⟨rfl, h2, h3, ?_⟩
    intro f hf
    have hm : f.err ∈ s.streams.map PreparedField.err :=
      h4.subset (List.mem_map_of_mem _ hf)
    obtain ⟨g, hg, hge⟩ := List.mem_map.mp hm
    rw [← hge]
    exact hfree g hg
  | err e out =>
    obtain ⟨h1, h2, h3⟩ := read_spec_err hgood h
    obtain ⟨g, hg, hge⟩ := List.mem_map.mp h2
    rw [hfree g hg] at hge
    exact absurd hge (by simp)

theorem drainList_spec :
    ∀ (sizes : List Nat) (s : PreparedFields), goodState s → errFree s →
      drainList s sizes = s.pending.take sizes.sum
  | [], s, _, _ => by simp [drainList]
  | n :: ns, s, hgood, hfree => by
    rcases hres : s.read n with ⟨r, s2⟩
    obtain ⟨h1, h2, h3, h4⟩ := errFree_read_ok hgood hfree hres
    subst h1
    simp only [drainList, hres]
    rw [drainList_spec ns s2 h3 h4, h2, List.sum_cons,
      chunk_take s.pending (Nat.le_add_right n ns.sum)]
    have harith : n + ns.sum - n = ns.sum := by omega
    rw [harith]

theorem read_exhausted {s : PreparedFields} (hend : cursor_at_end s.end_boundary)
    (n : Nat) : s.read n = (.ok [], s) := by
  unfold PreparedFields.read
  by_cases hn : n = 0
  · rw [if_pos hn]
  · rw [if_neg hn]
    rcases hf : n + s.streams.length with _ | fuel
    · exact absurd hf (by omega)
    · exact readLoop_stop (fun hc => hc.2 hend)

theorem drain_exhausted {s : PreparedFields} (hend : cursor_at_end s.end_boundary) :
    ∀ sizes : List Nat, drainList s sizes = []
  | [] => by simp [drainList]
  | n :: ns => by
    simp only [drainList, read_exhausted hend n, List.nil_append]
    exact drain_exhausted hend ns

/-! ### Specification of `Multipart.prepare` -/

theorem prepare_fold (boundary : List Nat) :
    ∀ (fields : List (List Nat × Data)) (td : List Nat) (ss : List PreparedField),
      fields.foldl (prepStep boundary) (td, ss) =
        (td ++ (fields.filterMap (textOf boundary)).flatten,
         ss ++ fields.filterMap (streamOf boundary))
  | [], td, ss => by simp
  | (name, d) :: rest, td, ss => by
    cases d with
    | text t =>
      simp only [List.foldl_cons, prepStep, List.filterMap_cons, textOf, streamOf]
      rw [prepare_fold boundary rest (td ++ textRender boundary name t) ss]
      simp [List.append_assoc]
    | stream sd =>
      simp only [List.foldl_cons, prepStep, List.filterMap_cons, textOf, streamOf]
      rw [prepare_fold boundary rest td
        (ss ++ [PreparedField.from_stream name boundary sd.content_type
          sd.filename sd.stream sd.srcErr])]
      simp [List.append_assoc]

theorem prepare_parts (m : Multipart) (tok : List Nat) :
    ((m.prepare tok).2).text_data.rem =
        (m.fields.filterMap (textOf (strBytes "\r\n--" ++ tok))).flatten ∧
    ((m.prepare tok).2).streams =
        m.fields.filterMap (streamOf (strBytes "\r\n--" ++ tok)) ∧
    ((m.prepare tok).2).end_boundary.pos = 0 ∧
    ((m.prepare tok).2).end_boundary.data =
      (if ((m.fields.filterMap (textOf (strBytes "\r\n--" ++ tok))).flatten).isEmpty &&
          (m.fields.filterMap (streamOf (strBytes "\r\n--" ++ tok))).isEmpty
       then []
       else (strBytes "\r\n--" ++ tok) ++ strBytes "--") := by
  simp only [Multipart.prepare, prepare_fold (strBytes "\r\n--" ++ tok) m.fields [] [],
    List.nil_append, Cursor.rem, List.drop_zero]
  exact ⟨trivial, trivial, trivial, trivial⟩

theorem prepare_goodState (m : Multipart) (tok : List Nat) :
    goodState (m.prepare tok).2 := by
  obtain ⟨h1, h2, h3, h4⟩ := prepare_parts m tok
  intro hend
  unfold cursor_at_end at hend
  rw [h3] at hend
  have hdata : ((m.prepare tok).2).end_boundary.data = [] := by
    have hlen : ((m.prepare tok).2).end_boundary.data.length = 0 := hend.symm
    exact List.eq_nil_of_length_eq_zero hlen
  rw [hdata] at h4
  rcases hc : ((m.fields.filterMap (textOf (strBytes "\r\n--" ++ tok))).flatten).isEmpty &&
      (m.fields.filterMap (streamOf (strBytes "\r\n--" ++ tok))).isEmpty with _ | _
  · rw [hc] at h4
    simp only [if_neg Bool.false_ne_true] at h4
    have : (strBytes "\r\n--" ++ tok ++ strBytes "--").length = 0 := by
      rw [← h4]
      rfl
    simp [strBytes] at this
  · rw [hc] at h4
    have hemp := hc
    rw [Bool.and_eq_true, List.isEmpty_iff, List.isEmpty_iff] at hemp
    rw [PreparedFields.pending, h1, h2, hemp.1, hemp.2, streamsPending_nil]
    have hrem : ((m.prepare tok).2).end_boundary.rem = [] := by
      unfold Cursor.rem
      rw [hdata]
      simp
    rw [hrem]
    rfl

theorem prepare_errFree (m : Multipart) (tok : List Nat) (hm : errFreeM m) :
    errFree (m.prepare tok).2 := by
  obtain ⟨h1, h2, h3, h4⟩ := prepare_parts m tok
  intro f hf
  rw [h2] at hf
  obtain ⟨⟨name, d⟩, hmem, heq⟩ := List.mem_filterMap.mp hf
  cases d with
  | text t => simp [streamOf] at heq
  | stream sd =>
    simp only [streamOf, Option.some.injEq] at heq
    have hok := hm (name, .stream sd) hmem
    unfold fieldOk at hok
    rw [← heq]
    exact hok

theorem streamOf_pending (boundary : List Nat) (fd : List Nat × Data) :
    (streamOf boundary fd).map PreparedField.pending = streamRender boundary fd := by
  rcases fd with ⟨name, d⟩
  cases d with
  | text t => rfl
  | stream sd =>
    simp only [streamOf, streamRender, Option.map_some']
    unfold PreparedField.pending PreparedField.from_stream Cursor.rem
    simp

theorem streamsPending_filterMap (boundary : List Nat)
    (fields : List (List Nat × Data)) :
    streamsPending (fields.filterMap (streamOf boundary)) =
      ((fields.filterMap (streamRender boundary)).reverse).flatten := by
  unfold streamsPending
  rw [List.map_reverse, List.map_filterMap]
  have hfun : (fun x => (streamOf boundary x).map PreparedField.pending) =
      streamRender boundary := funext (streamOf_pending boundary)
  rw [hfun]

theorem prepare_pending (m : Multipart) (tok : List Nat) :
    ((m.prepare tok).2).pending =
      (m.fields.filterMap (textOf (strBytes "\r\n--" ++ tok))).flatten ++
      (((m.fields.filterMap (streamRender (strBytes "\r\n--" ++ tok))).reverse).flatten ++
        ((m.prepare tok).2).end_boundary.data) := by
  obtain ⟨h1, h2, h3, h4⟩ := prepare_parts m tok
  have hrem : ((m.prepare tok).2).end_boundary.rem =
      ((m.prepare tok).2).end_boundary.data := by
    unfold Cursor.rem
    rw [h3]
    simp
  rw [PreparedFields.pending, h1, h2, hrem, streamsPending_filterMap]

theorem isEmpty_false_of_length_pos {α : Type} {l : List α} (h : 0 < l.length) :
    l.isEmpty = false := by
  cases l with
  | nil => simp at h
  | cons a t => rfl

theorem textRender_a_hello (b : List Nat) :
    textRender b (strBytes "a") (strBytes "hello") =
      b ++ strBytes "\r\nContent-Disposition: form-data; name=\"a\"\r\n\r\nhello" := by
  unfold textRender
  simp only [List.append_assoc]
  have h : strBytes "\r\nContent-Disposition: form-data; name=\"" ++
      (strBytes "a" ++ (strBytes "\"\r\n\r\n" ++ strBytes "hello")) =
      strBytes "\r\nContent-Disposition: form-data; name=\"a\"\r\n\r\nhello" := by
    decide
  rw [← h]

/-! ### The claims -/

/-- C1: for a field set containing exactly the text field `("a", "hello")`,
reading the prepared body to exhaustion (any buffer-size schedule whose
total covers the body) produces exactly
`\r\n--{B}\r\nContent-Disposition: form-data; name="a"\r\n\r\nhello\r\n--{B}--`,
where `B` is the 16-character token returned by the boundary accessor of
that prepared body. -/
theorem single_text_field_body (tok sizes : List Nat) (_htok : tok.length = 16)
    (hsz : (((Multipart.new.add_text (strBytes "a") (strBytes "hello")).prepare
        tok).2).pending.length ≤ sizes.sum) :
    drainList ((Multipart.new.add_text (strBytes "a") (strBytes "hello")).prepare
        tok).2 sizes =
      strBytes "\r\n--" ++ tok ++
        strBytes "\r\nContent-Disposition: form-data; name=\"a\"\r\n\r\nhello\r\n--" ++
        tok ++ strBytes "--" ∧
    (((Multipart.new.add_text (strBytes "a") (strBytes "hello")).prepare
        tok).2).boundary = some tok := by
  obtain ⟨hp1, hp2, hp3, hp4⟩ :=
    prepare_parts (Multipart.new.add_text (strBytes "a") (strBytes "hello")) tok
  have hne : ((((Multipart.new.add_text (strBytes "a") (strBytes "hello")).fields).filterMap
      (textOf (strBytes "\r\n--" ++ tok))).flatten).isEmpty = false := rfl
  rw [hne, Bool.false_and] at hp4
  simp only [Bool.false_eq_true, if_false] at hp4
  constructor
  · rw [drainList_spec sizes _ (prepare_goodState _ tok)
      (prepare_errFree _ tok (by decide)), List.take_of_length_le hsz,
      prepare_pending, hp4]
    simp only [Multipart.new, Multipart.add_text, List.nil_append, List.filterMap_cons,
      List.filterMap_nil, textOf, streamRender, List.flatten_cons, List.flatten_nil,
      List.append_nil, List.reverse_nil]
    rw [textRender_a_hello]
    have hB :
        strBytes "\r\nContent-Disposition: form-data; name=\"a\"\r\n\r\nhello\r\n--" =
          strBytes "\r\nContent-Disposition: form-data; name=\"a\"\r\n\r\nhello" ++
            strBytes "\r\n--" := by decide
    rw [hB]
    simp [List.append_assoc]
  · simp only [PreparedFields.boundary]
    rw [hp4]
    have hlen : ((strBytes "\r\n--" ++ tok) ++ strBytes "--").length = tok.length + 6 := by
      rw [List.length_append, List.length_append]
      have h1 : (strBytes "\r\n--").length = 4 := rfl
      have h2 : (strBytes "--").length = 2 := rfl
      omega
    rw [hlen, if_pos (by omega)]
    congr 1
    have h62 : tok.length + 6 - 2 = (strBytes "\r\n--" ++ tok).length := by
      rw [List.length_append]
      have h1 : (strBytes "\r\n--").length = 4 := rfl
      omega
    rw [h62, List.take_append_of_le_length (le_refl _), List.take_length,
      List.drop_append_of_le_length (by decide)]
    have hd : List.drop 4 (strBytes "\r\n--") = ([] : List Nat) := rfl
    rw [hd, List.nil_append]

/-- C1 witness at the token `0123456789ABCDEF` and a single 256-byte
buffer. -/
theorem single_text_field_body_witness :
    drainList ((Multipart.new.add_text (strBytes "a") (strBytes "hello")).prepare
        tokA).2 [256] =
      strBytes "\r\n--" ++ tokA ++
        strBytes "\r\nContent-Disposition: form-data; name=\"a\"\r\n\r\nhello\r\n--" ++
        tokA ++ strBytes "--" ∧
    (((Multipart.new.add_text (strBytes "a") (strBytes "hello")).prepare
        tokA).2).boundary = some tokA :=
  single_text_field_body tokA [256] (by decide) (by decide)

/-- C2: draining a prepared body yields all text fields rendered in
registration order first, then the stream fields in reverse registration
order, then the terminal boundary; the schedule of destination-buffer
sizes does not matter, and for a non-empty field set the terminal
boundary marker `\r\n--{tok}--` is the final bytes. -/
theorem resolved_order_drain (m : Multipart) (tok sizes : List Nat)
    (hfree : errFreeM m)
    (hsz : ((m.prepare tok).2).pending.length ≤ sizes.sum) :
    drainList (m.prepare tok).2 sizes =
      (m.fields.filterMap (textOf (strBytes "\r\n--" ++ tok))).flatten ++
      (((m.fields.filterMap (streamRender (strBytes "\r\n--" ++ tok))).reverse).flatten ++
        ((m.prepare tok).2).end_boundary.data) ∧
    (m.fields ≠ [] →
      ((m.prepare tok).2).end_boundary.data =
        (strBytes "\r\n--" ++ tok) ++ strBytes "--") := by
  constructor
  · rw [drainList_spec sizes _ (prepare_goodState m tok)
      (prepare_errFree m tok hfree), List.take_of_length_le hsz, prepare_pending]
  · intro hne
    obtain ⟨hp1, hp2, hp3, hp4⟩ := prepare_parts m tok
    rw [hp4]
    have hcond :
        (((m.fields.filterMap (textOf (strBytes "\r\n--" ++ tok))).flatten).isEmpty &&
          (m.fields.filterMap (streamOf (strBytes "\r\n--" ++ tok))).isEmpty) = false := by
      rcases hf : m.fields with _ | ⟨⟨na, d⟩, rest⟩
      · exact absurd hf hne
      · cases d with
        | text t =>
          have hlen : 0 <
              ((((na, Data.text t) :: rest).filterMap
                (textOf (strBytes "\r\n--" ++ tok))).flatten).length := by
            simp only [List.filterMap_cons, textOf, List.flatten_cons, List.length_append]
            have h4 : 0 < (textRender (strBytes "\r\n--" ++ tok) na t).length := by
              unfold textRender
              simp only [List.length_append]
              have h5 : (strBytes "\r\n--").length = 4 := rfl
              omega
            omega
          rw [isEmpty_false_of_length_pos hlen, Bool.false_and]
        | stream sd =>
          have hlen : 0 <
              (((na, Data.stream sd) :: rest).filterMap
                (streamOf (strBytes "\r\n--" ++ tok))).length := by
            simp only [List.filterMap_cons, streamOf, List.length_cons]
            omega
          rw [isEmpty_false_of_length_pos hlen, Bool.and_false]
    rw [hcond]
    simp

/-- C2 witness: one text field and two stream fields, drained with one
large buffer. -/
theorem resolved_order_drain_witness :
    drainList (mMixed.prepare tokA).2 [400] =
      (mMixed.fields.filterMap (textOf (strBytes "\r\n--" ++ tokA))).flatten ++
      (((mMixed.fields.filterMap (streamRender (strBytes "\r\n--" ++ tokA))).reverse).flatten ++
        ((mMixed.prepare tokA).2).end_boundary.data) ∧
    (mMixed.fields ≠ [] →
      ((mMixed.prepare tokA).2).end_boundary.data =
        (strBytes "\r\n--" ++ tokA) ++ strBytes "--") :=
  resolved_order_drain mMixed tokA [400] (by decide) (by decide)

/-- C3 counterexample: preparing an empty field set discards the boundary
string, so the boundary accessor does not return the generated
16-character token — its slice is out of range (modelled as `none`). -/
theorem empty_prepare_boundary_cex :
    tokA.length = 16 ∧ pEmpty.boundary = none ∧ pEmpty.boundary ≠ some tokA := by
  decide

/-- C3 amended: when `prepare()` is called on a field set with zero
fields, the stored end boundary is the empty string and the boundary
accessor fails with an out-of-range slice (modelled as `none`) instead of
returning the generated token. -/
theorem empty_prepare_boundary_amended (tok : List Nat) :
    ((Multipart.new.prepare tok).2).end_boundary.data = [] ∧
    ((Multipart.new.prepare tok).2).boundary = none := by
  refine ⟨rfl, ?_⟩
  simp only [PreparedFields.boundary]
  have h : ((Multipart.new.prepare tok).2).end_boundary.data = [] := rfl
  rw [h]
  decide

/-- C4 counterexample: on the single-text-field body, the first sub-read
of a read call returns a nonzero byte count (71 bytes), yet the call does
not return that count — it keeps pulling from further sources and returns
all 93 pending bytes. -/
theorem read_returns_early_cex :
    0 < ((pText1.text_data.read 200).1).length ∧
    (pText1.read 200).1 = .ok pText1.pending ∧
    (pText1.read 200).1 ≠ .ok ((pText1.text_data.read 200).1) ∧
    ((pText1.text_data.read 200).1).length < pText1.pending.length := by
  decide

/-- C4 amended: a single read call does not stop at the first nonzero
sub-read; it loops, pulling from successive sources (a stream field that
produced bytes is pushed back on the queue), until the destination buffer
is full or the body is exhausted, returning `min n remaining` bytes. -/
theorem read_fills_buffer_amended (s : PreparedFields) (n : Nat)
    (hgood : goodState s) (hfree : errFree s) :
    (s.read n).1 = .ok (s.pending.take n) ∧
    (s.pending.take n).length = min n s.pending.length := by
  obtain ⟨h1, h2, h3, h4⟩ := errFree_read_ok hgood hfree rfl
  exact ⟨h1, List.length_take n s.pending⟩

/-- C4 amended witness: a 7-byte buffer on the single-text-field body. -/
theorem read_fills_buffer_amended_witness :
    (pText1.read 7).1 = .ok (pText1.pending.take 7) ∧
    (pText1.pending.take 7).length = min 7 pText1.pending.length :=
  read_fills_buffer_amended pText1 7 (by decide) (by decide)

/-- C5: draining a prepared body (stream payloads modelled as fixed byte
sequences) yields the same total bytes for every schedule of
destination-buffer sizes that covers the body. -/
theorem chunking_invariance (m : Multipart) (tok sizes1 sizes2 : List Nat)
    (hfree : errFreeM m)
    (h1 : ((m.prepare tok).2).pending.length ≤ sizes1.sum)
    (h2 : ((m.prepare tok).2).pending.length ≤ sizes2.sum) :
    drainList (m.prepare tok).2 sizes1 = drainList (m.prepare tok).2 sizes2 := by
  rw [drainList_spec sizes1 _ (prepare_goodState m tok) (prepare_errFree m tok hfree),
    drainList_spec sizes2 _ (prepare_goodState m tok) (prepare_errFree m tok hfree),
    List.take_of_length_le h1, List.take_of_length_le h2]

/-- C5 witness: one byte at a time versus one large buffer on a body with
one text field and two stream fields. -/
theorem chunking_invariance_witness :
    drainList (mMixed.prepare tokA).2 (List.replicate 350 1) =
      drainList (mMixed.prepare tokA).2 [400] :=
  chunking_invariance mMixed tokA (List.replicate 350 1) [400]
    (by decide) (by decide) (by decide)

/-- C6: the stream field queued by `add_stream` is prepared with a header
that is, byte for byte, the boundary line, then
`\r\nContent-Disposition: form-data; name="{name}"`, then
`; filename="{filename}"` exactly when a filename was supplied, then
unconditionally `\r\nContent-Type: {content_type}\r\n\r\n`, where the
content type defaults to `application/octet-stream` when omitted. -/
theorem stream_header_bytes (prior : Multipart) (tok name stream : List Nat)
    (serr : Option Nat) (filename : Option (List Nat)) (mime : Option (List Nat)) :
    ((((prior.add_stream name stream serr filename mime).prepare tok).2).streams.map
        (fun f => (f.header.data, f.data, f.err))).getLast? =
      some ((strBytes "\r\n--" ++ tok) ++
          strBytes "\r\nContent-Disposition: form-data; name=\"" ++ name ++
          strBytes "\"" ++
          (match filename with
           | some fn => strBytes "; filename=\"" ++ fn ++ strBytes "\""
           | none => []) ++
          strBytes "\r\nContent-Type: " ++
          mime.getD (strBytes "application/octet-stream") ++ strBytes "\r\n\r\n",
        stream, serr) := by
  obtain ⟨hp1, hp2, hp3, hp4⟩ :=
    prepare_parts (prior.add_stream name stream serr filename mime) tok
  rw [hp2]
  simp only [Multipart.add_stream, List.filterMap_append, List.filterMap_cons,
    List.filterMap_nil, streamOf, List.map_append, List.map_cons, List.map_nil]
  rw [List.getLast?_concat]
  rfl

/-- C7: once the terminal boundary is fully consumed, every read call
returns 0 bytes without error and leaves the state unchanged, and any
further schedule of reads produces no bytes. -/
theorem exhaustion_sticky (s : PreparedFields) (n : Nat) (sizes : List Nat)
    (hend : cursor_at_end s.end_boundary) :
    s.read n = (.ok [], s) ∧ drainList s sizes = [] :=
  ⟨read_exhausted hend n, drain_exhausted hend sizes⟩

/-- C7 witness: the single-text-field body after it has been fully
drained by one 200-byte read. -/
theorem exhaustion_sticky_witness :
    ((pText1.read 200).2).read 9 = (.ok [], (pText1.read 200).2) ∧
    drainList ((pText1.read 200).2) [3, 5] = [] :=
  exhaustion_sticky ((pText1.read 200).2) 9 [3, 5] (by decide)

/-- C8: when a read call surfaces an error, the error value is the one
recorded for a queued payload source, the erroring field stays on top of
the queue for subsequent reads, and the bytes the call wrote plus the
bytes still pending are exactly the bytes that were pending before the
call — nothing is skipped or duplicated. -/
theorem stream_error_propagation (s : PreparedFields) (n e : Nat) (out : List Nat)
    (s2 : PreparedFields) (hgood : goodState s)
    (h : s.read n = (.err e out, s2)) :
    out ++ s2.pending = s.pending ∧
    some e ∈ s.streams.map PreparedField.err ∧
    (s2.streams.map PreparedField.err).getLast? = some (some e) := by
  obtain ⟨h1, h2, h3⟩ := read_spec_err hgood h
  refine ⟨h1, h2, ?_⟩
  obtain ⟨rest, f, hs, hf⟩ := h3
  rw [hs, List.map_append]
  simp only [List.map_cons, List.map_nil]
  rw [List.getLast?_concat, hf]

/-- C8 witness: a text field followed by a stream field whose source
errors with code 7; the erroring call has already written the 173 bytes
of text block and stream header. -/
theorem stream_error_propagation_witness :
    pFail.pending.take 173 ++ ((pFail.read 500).2).pending = pFail.pending ∧
    some 7 ∈ pFail.streams.map PreparedField.err ∧
    (((pFail.read 500).2).streams.map PreparedField.err).getLast? = some (some 7) :=
  stream_error_propagation pFail 500 7 (pFail.pending.take 173) ((pFail.read 500).2)
    (by decide) (by rfl)

/-- C9: preparing an empty field set yields a body that produces zero
bytes: every read call returns 0 bytes leaving the state unchanged, and
any schedule of reads produces no bytes at all. -/
theorem empty_fieldset_zero_body (tok : List Nat) (n : Nat) (sizes : List Nat) :
    ((Multipart.new.prepare tok).2).read n =
      (.ok [], (Multipart.new.prepare tok).2) ∧
    drainList ((Multipart.new.prepare tok).2) sizes = [] := by
  have hend : cursor_at_end ((Multipart.new.prepare tok).2).end_boundary := rfl
  exact ⟨read_exhausted hend n, drain_exhausted hend sizes⟩

/-- C10: `prepare()` drains the field collection in place: afterwards the
field list is empty, and a second `prepare()` on the drained value
succeeds and yields a body that produces zero bytes. -/
theorem prepare_drains_fields (m : Multipart) (tok tok2 : List Nat) (n : Nat)
    (sizes : List Nat) :
    ((m.prepare tok).1).fields = [] ∧
    (((m.prepare tok).1).prepare tok2).2.read n =
      (.ok [], (((m.prepare tok).1).prepare tok2).2) ∧
    drainList ((((m.prepare tok).1).prepare tok2).2) sizes = [] := by
  have hend : cursor_at_end ((((m.prepare tok).1).prepare tok2).2).end_boundary := rfl
  exact ⟨rfl, read_exhausted hend n, drain_exhausted hend sizes⟩

end OpenAIAPI
